import Mathlib

/-!
# PatternProxy: a single-entry TTL cache in front of a repository

Shallow embedding of `main.go`.

* Durations and clock readings are nanoseconds.  A clock reading is a `Nat`;
  a `time.Duration` (a signed 64-bit count of nanoseconds) is an `Int`, so a
  negative `ttl` is representable, as it is in Go.
* `sync.RWMutex` is not a field of the model.  The code touches the map only
  inside a locked section, no locked section blocks, and each one releases the
  lock on every path (lines 45 and 48, line 60, line 62); so each locked section
  is one atomic step: lines 43-48 (`readSlot`), lines 54-62
  (`storeAndSchedule`) and lines 58-60 (`invalidate`).  The call of the
  repository at line 51 happens outside any lock and is a step of its own.
* A goroutine started at line 56 is a pending `Timer`; `time.Sleep` pauses for
  at least the given duration, so it may run once the clock has reached its
  due time.  Nothing orders its delete against a read at the same clock
  reading.  Where a statement needs the delete to happen exactly when the sleep
  ends, it says so: by assuming the schedule `punctual`, or by assuming that no
  pending goroutine is overdue.
* `GetData` is the proxy's method run by one caller without interruption;
  `step` and `run` interleave the steps of several calls, the goroutines and the
  clock.  `GetData_as_steps` relates the two.
-/

namespace PatternProxy

/-- One second in nanoseconds (`time.Second`). -/
def second : Nat := 1000000000

/-- Pause of `time.Sleep d`: a negative or zero duration returns at once. -/
def sleepFor (d : Int) : Nat := d.toNat

/-- Interface `SomeRepository` (lines 10-12).  `GetData k` is the outcome of the
invocation that follows `k` earlier invocations: the string it returns and the
time it blocks its caller before returning. -/
structure SomeRepository where
  GetData : Nat → String × Nat

/-- `SomeRepositoryImpl.GetData` (lines 18-22): sleeps two seconds and returns
the fixed string. -/
def SomeRepositoryImpl : SomeRepository :=
  { GetData := fun _ => ("data from database", 2 * second) }

/-- Lookup `m[k]` in a Go `map[string]string`; `none` when the key is absent. -/
def mapLookup (m : String → Option String) (k : String) : Option String := m k

/-- Assignment `m[k] = v`. -/
def mapAssign (m : String → Option String) (k v : String) : String → Option String :=
  fun k' => if k' = k then some v else m k'

/-- Builtin `delete(m, k)`. -/
def mapDelete (m : String → Option String) (k : String) : String → Option String :=
  fun k' => if k' = k then none else m k'

/-- Struct `SomeRepositoryProxy` (lines 25-30), without the mutex. -/
structure SomeRepositoryProxy where
  repository : SomeRepository
  cache : String → Option String
  ttl : Int

/-- Constructor `NewSomeRepositoryProxy` (lines 33-39). -/
def NewSomeRepositoryProxy (repository : SomeRepository) (ttl : Int) : SomeRepositoryProxy :=
  { repository := repository, cache := fun _ => none, ttl := ttl }

/-- Read of the slot under the read lock (lines 43-48): `p.cache["data"]`. -/
def readSlot (p : SomeRepositoryProxy) : Option String := mapLookup p.cache "data"

/-- Body of the goroutine after its sleep (lines 58-60): `delete(p.cache, "data")`. -/
def invalidate (p : SomeRepositoryProxy) : SomeRepositoryProxy :=
  { p with cache := mapDelete p.cache "data" }

/-- A goroutine started at line 56 that has not yet run its delete.  `due` is the
clock reading at which its `time.Sleep(p.ttl)` ends; `data` records the value
stored by the population that started it (bookkeeping only, the goroutine does
not read it). -/
structure Timer where
  due : Nat
  data : String
deriving DecidableEq

/-- Progress of one `GetData` call of the proxy. -/
inductive Call where
  /-- Called, slot not yet read (before line 43). -/
  | ready
  /-- The read found nothing (after line 48, before line 51). -/
  | missed
  /-- The repository was invoked at line 51; it hands over `data` at clock
  reading `readyAt`. -/
  | fetched (data : String) (readyAt : Nat)
  /-- The call returned `data` (line 46 or line 64). -/
  | returned (data : String)
deriving DecidableEq

/-- The proxy together with its environment. -/
structure Config where
  proxy : SomeRepositoryProxy
  /-- Clock. -/
  now : Nat
  /-- Number of invocations of `repository.GetData` so far. -/
  invoked : Nat
  /-- Goroutines started at line 56 that have not yet deleted. -/
  timers : List Timer
  /-- The `GetData` calls of the proxy, by index. -/
  calls : List Call
  /-- Clock reading of the latest execution of line 55, if any (bookkeeping). -/
  lastStore : Option Nat

/-- Lines 54-62 under the write lock: store `data` and start the goroutine that
sleeps `p.ttl` and then deletes. -/
def storeAndSchedule (c : Config) (data : String) : Config :=
  { c with
    proxy := { c.proxy with cache := mapAssign c.proxy.cache "data" data }
    timers := c.timers ++ [{ due := c.now + sleepFor c.proxy.ttl, data := data }]
    lastStore := some c.now }

/-- `SomeRepositoryProxy.GetData` (lines 42-65) run by one caller without
interruption: the value returned and the configuration afterwards.  On a miss
the clock advances by the time the repository blocks. -/
def GetData (c : Config) : String × Config :=
  match readSlot c.proxy with
  | some data => (data, c)
  | none =>
    let r := c.proxy.repository.GetData c.invoked
    (r.1, storeAndSchedule { c with invoked := c.invoked + 1, now := c.now + r.2 } r.1)

/-- Atomic steps of the system. -/
inductive Label where
  /-- Call `i` reads the slot (lines 43-48). -/
  | read (i : Nat)
  /-- Call `i` invokes the repository (line 51). -/
  | fetch (i : Nat)
  /-- Call `i` stores and schedules (lines 54-64). -/
  | store (i : Nat)
  /-- The pending goroutine at position `k` runs its delete (lines 58-60). -/
  | fire (k : Nat)
  /-- The clock advances by `d`. -/
  | wait (d : Nat)
deriving DecidableEq

/-- One step.  A step that is not enabled leaves the configuration as it is. -/
def step (c : Config) : Label → Config
  | .read i =>
    match c.calls[i]? with
    | some .ready =>
      match readSlot c.proxy with
      | some data => { c with calls := c.calls.set i (.returned data) }
      | none => { c with calls := c.calls.set i .missed }
    | _ => c
  | .fetch i =>
    match c.calls[i]? with
    | some .missed =>
      let r := c.proxy.repository.GetData c.invoked
      { c with invoked := c.invoked + 1, calls := c.calls.set i (.fetched r.1 (c.now + r.2)) }
    | _ => c
  | .store i =>
    match c.calls[i]? with
    | some (.fetched data readyAt) =>
      if readyAt ≤ c.now then
        { storeAndSchedule c data with calls := c.calls.set i (.returned data) }
      else c
    | _ => c
  | .fire k =>
    match c.timers[k]? with
    | some t =>
      if t.due ≤ c.now then
        { c with proxy := invalidate c.proxy, timers := c.timers.eraseIdx k }
      else c
    | none => c
  | .wait d => { c with now := c.now + d }

/-- Run a schedule, first label first. -/
def run (c : Config) : List Label → Config
  | [] => c
  | l :: ls => run (step c l) ls

/-- A freshly constructed proxy at clock reading zero with `n` calls issued and
none of them started. -/
def spawn (repository : SomeRepository) (ttl : Int) (n : Nat) : Config :=
  { proxy := NewSomeRepositoryProxy repository ttl
    now := 0
    invoked := 0
    timers := []
    calls := List.replicate n .ready
    lastStore := none }

/-- Timers are punctual along a schedule: the clock never moves past the due time
of a pending goroutine, so each goroutine deletes exactly when its sleep ends. -/
def punctual (c : Config) : List Label → Bool
  | [] => true
  | .wait d :: ls =>
    c.timers.all (fun t => decide (c.now + d ≤ t.due)) && punctual (step c (.wait d)) ls
  | l :: ls => punctual (step c l) ls

/-- The run of `main` (lines 67-82) with ttl ten seconds: two calls, a sleep of
eleven seconds during which the goroutine deletes, and a third call. -/
def mainSchedule : List Label :=
  [.read 0, .fetch 0, .wait (2 * second), .store 0,
   .read 1,
   .wait (10 * second), .fire 0, .wait second,
   .read 2, .fetch 2, .wait (2 * second), .store 2]

/-- The value `v` is one the repository has returned since its invocation number
`k0`: the result of an invocation numbered from `k0` up to, not including,
`c.invoked`. -/
def FromRepository (k0 : Nat) (c : Config) (v : String) : Prop :=
  ∃ k, k0 ≤ k ∧ k < c.invoked ∧ v = (c.proxy.repository.GetData k).1

/-- Every value held by the slot or by a call came from the repository, from
invocation number `k0` on. -/
def Provenance (k0 : Nat) (c : Config) : Prop :=
  (∀ v, readSlot c.proxy = some v → FromRepository k0 c v) ∧
  (∀ (i : Nat) (d : String) (r : Nat),
    c.calls[i]? = some (Call.fetched d r) → FromRepository k0 c d) ∧
  (∀ (i : Nat) (d : String), c.calls[i]? = some (Call.returned d) → FromRepository k0 c d) ∧
  k0 ≤ c.invoked

/-- A call that has not yet invoked the repository and may still do so counts one. -/
def unfetched : Call → Nat
  | .ready => 1
  | .missed => 1
  | .fetched _ _ => 0
  | .returned _ => 0

/-- Number of calls that may still invoke the repository. -/
def outstanding (c : Config) : Nat := (c.calls.map unfetched).sum

/-- Two calls that both read the empty slot before either stores: each invokes
the repository and each stores and schedules. -/
def stampedeSchedule : List Label :=
  [.read 0, .read 1, .fetch 0, .fetch 1, .wait (2 * second), .store 0, .store 1]

/-- The first call of `main` alone: read, invoke, two seconds in the repository,
store. -/
def firstCall : List Label :=
  [.read 0, .fetch 0, .wait (2 * second), .store 0]

/-- The run of `main` up to its third call: the first call, the second call, and
the sleep of eleven seconds during which the goroutine deletes. -/
def beforeThirdCall : List Label :=
  firstCall ++ [.read 1, .wait (10 * second), .fire 0, .wait second]

/-- The first call of `main` followed by ten seconds, the whole ttl of `main`, with
the goroutine not yet run. -/
def untilDue : List Label :=
  firstCall ++ [.wait (10 * second)]

/-- A repository whose first invocation returns one string and whose later
invocations return another, without blocking. -/
def changingRepository : SomeRepository :=
  { GetData := fun k => (if k = 0 then "first" else "second", 0) }

/-- Two calls that both miss; call 0 stores at clock zero, call 1 stores one second
later, and the clock then reaches the due time of the goroutine of call 0. -/
def overlapSchedule : List Label :=
  [.read 0, .read 1, .fetch 0, .fetch 1, .store 0, .wait second, .store 1, .wait (9 * second)]

/-- Sequential calls of `GetData`, each followed by the delete of the pending
goroutine at position 0 (a step that does nothing unless that goroutine exists
and its sleep has ended): the values returned and the configuration afterwards. -/
def expiringCalls : Nat → Config → List String × Config
  | 0, c => ([], c)
  | n + 1, c =>
    ((GetData c).1 :: (expiringCalls n (step (GetData c).2 (.fire 0))).1,
     (expiringCalls n (step (GetData c).2 (.fire 0))).2)

/-- The slot holds `v`, no pending goroutine is due before `B`, the repository was
invoked once, and every call is unstarted or has returned `v`. -/
def Warm (c : Config) (v : String) (B : Nat) : Prop :=
  readSlot c.proxy = some v ∧ (∀ t, t ∈ c.timers → B ≤ t.due) ∧ c.invoked = 1 ∧
  (∀ (i : Nat) (x : Call), c.calls[i]? = some x → x = Call.ready ∨ x = Call.returned v)

/-- The first call of `main` followed by ten seconds and one nanosecond in which
the goroutine, whose sleep ends at twelve seconds, has not yet run its delete. -/
def lateSchedule : List Label :=
  firstCall ++ [.wait (10 * second + 1)]

/-- A held value is backed by a pending goroutine: the one started by the latest
population, due ttl after it. -/
def Backed (c : Config) : Prop :=
  ∀ v, readSlot c.proxy = some v →
    ∃ s, c.lastStore = some s ∧ ∃ t, t ∈ c.timers ∧ t.due = s + sleepFor c.proxy.ttl

/-- Bookkeeping that holds along every punctual schedule: the map has no key but
`"data"`; a held value comes with the goroutine its population started, still
pending; no pending goroutine is overdue; the latest store is not in the future. -/
def Timely (c : Config) : Prop :=
  (∀ k, k ≠ "data" → mapLookup c.proxy.cache k = none) ∧
  (∀ v, readSlot c.proxy = some v →
    ∃ s, c.lastStore = some s ∧ ∃ t, t ∈ c.timers ∧ t.due = s + sleepFor c.proxy.ttl) ∧
  (∀ t, t ∈ c.timers → c.now ≤ t.due) ∧
  (∀ s, c.lastStore = some s → s ≤ c.now)

/-- The effective moves of the system: `Move c c'` lists every way `step` can lead
from `c` to `c'`, each with the condition under which that step is enabled. -/
inductive Move (c : Config) : Config → Prop where
  | stay : Move c c
  | hit (i : Nat) (v : String) (hi : c.calls[i]? = some Call.ready)
      (hv : readSlot c.proxy = some v) :
      Move c { c with calls := c.calls.set i (.returned v) }
  | miss (i : Nat) (hi : c.calls[i]? = some Call.ready) (hv : readSlot c.proxy = none) :
      Move c { c with calls := c.calls.set i .missed }
  | fetch (i : Nat) (hi : c.calls[i]? = some Call.missed) :
      Move c { c with
        invoked := c.invoked + 1
        calls := c.calls.set i
          (.fetched (c.proxy.repository.GetData c.invoked).1
            (c.now + (c.proxy.repository.GetData c.invoked).2)) }
  | store (i : Nat) (d : String) (r : Nat) (hi : c.calls[i]? = some (Call.fetched d r))
      (hr : r ≤ c.now) :
      Move c { storeAndSchedule c d with calls := c.calls.set i (.returned d) }
  | fire (k : Nat) (t : Timer) (hk : c.timers[k]? = some t) (ht : t.due ≤ c.now) :
      Move c { c with proxy := invalidate c.proxy, timers := c.timers.eraseIdx k }
  | wait (d : Nat) : Move c { c with now := c.now + d }

/-! ## The operations on their own -/

theorem readSlot_store (c : Config) (d : String) :
    readSlot (storeAndSchedule c d).proxy = some d := by
  simp [readSlot, storeAndSchedule, mapLookup, mapAssign]

theorem readSlot_invalidate (p : SomeRepositoryProxy) : readSlot (invalidate p) = none := by
  simp [readSlot, invalidate, mapLookup, mapDelete]

/-- C1. Cache hit: when the slot holds `v`, `GetData` returns `v`, and the
configuration afterwards is the configuration before: the repository was not
invoked, the proxy (repository, ttl, map) is the same, the slot still holds `v`
and no goroutine was started.  As a step of call `i`, the read changes nothing
but the progress of that call. -/
theorem C1_cache_hit (c : Config) (v : String) (h : readSlot c.proxy = some v) :
    (GetData c).1 = v ∧ (GetData c).2 = c ∧
    (GetData c).2.invoked = c.invoked ∧ (GetData c).2.proxy = c.proxy ∧
    readSlot (GetData c).2.proxy = some v ∧ (GetData c).2.timers = c.timers ∧
    (∀ i, c.calls[i]? = some Call.ready →
      step c (.read i) = { c with calls := c.calls.set i (.returned v) }) := by
  have hg : GetData c = (v, c) := by simp [GetData, h]
  refine ⟨by rw [hg], by rw [hg], by rw [hg], by rw [hg], by rw [hg]; exact h, by rw [hg], ?_⟩
  intro i hi
  simp [step, hi, h]

/-- Witness of C1 on the proxy of `main` after its first call. -/
theorem C1_cache_hit_witness :
    readSlot (GetData (spawn SomeRepositoryImpl (10 * second) 0)).2.proxy
        = some "data from database" ∧
    (GetData (GetData (spawn SomeRepositoryImpl (10 * second) 0)).2).1 = "data from database" ∧
    (GetData (GetData (spawn SomeRepositoryImpl (10 * second) 0)).2).2.invoked = 1 :=
  ⟨by decide,
   (C1_cache_hit (GetData (spawn SomeRepositoryImpl (10 * second) 0)).2 "data from database"
      (by decide)).1,
   by decide⟩

/-- C2. Cache miss: when the slot is empty, as it is in the proxy produced by
`NewSomeRepositoryProxy`, `GetData` invokes the repository once, returns the
value of that invocation, leaves the slot holding it, and starts one goroutine,
appended to the pending ones, whose sleep ends ttl after the store (at the store
itself when ttl is negative); the store is the latest population. -/
theorem C2_cache_miss (c : Config) (h : readSlot c.proxy = none) :
    (GetData c).2.invoked = c.invoked + 1 ∧
    (GetData c).1 = (c.proxy.repository.GetData c.invoked).1 ∧
    readSlot (GetData c).2.proxy = some (GetData c).1 ∧
    (GetData c).2.timers =
      c.timers ++ [{ due := (GetData c).2.now + sleepFor c.proxy.ttl, data := (GetData c).1 }] ∧
    (GetData c).2.lastStore = some (GetData c).2.now ∧
    (0 ≤ c.proxy.ttl →
      (((GetData c).2.now + sleepFor c.proxy.ttl : Nat) : Int) = (GetData c).2.now + c.proxy.ttl) ∧
    (∀ repository ttl, readSlot (NewSomeRepositoryProxy repository ttl) = none) := by
  have hg : GetData c = ((c.proxy.repository.GetData c.invoked).1,
      storeAndSchedule { c with invoked := c.invoked + 1,
                                now := c.now + (c.proxy.repository.GetData c.invoked).2 }
        (c.proxy.repository.GetData c.invoked).1) := by
    simp [GetData, h]
  rw [hg]
  refine ⟨rfl, rfl, ?_, rfl, rfl, ?_, ?_⟩
  · exact readSlot_store _ _
  · intro h0
    simp only [sleepFor, storeAndSchedule]
    push_cast
    rw [Int.toNat_of_nonneg h0]
  · intro repository ttl
    rfl

/-- Witness of C2: the first call of `main`. -/
theorem C2_cache_miss_witness :
    readSlot (spawn SomeRepositoryImpl (10 * second) 0).proxy = none ∧
    (GetData (spawn SomeRepositoryImpl (10 * second) 0)).1 = "data from database" ∧
    (GetData (spawn SomeRepositoryImpl (10 * second) 0)).2.timers =
      [{ due := 12 * second, data := "data from database" }] ∧
    (GetData (spawn SomeRepositoryImpl (10 * second) 0)).2.invoked =
      (spawn SomeRepositoryImpl (10 * second) 0).invoked + 1 ∧
    0 ≤ (spawn SomeRepositoryImpl (10 * second) 0).proxy.ttl ∧
    (((GetData (spawn SomeRepositoryImpl (10 * second) 0)).2.now +
        sleepFor (spawn SomeRepositoryImpl (10 * second) 0).proxy.ttl : Nat) : Int) =
      (GetData (spawn SomeRepositoryImpl (10 * second) 0)).2.now +
        (spawn SomeRepositoryImpl (10 * second) 0).proxy.ttl :=
  ⟨by decide, by decide, by decide,
   (C2_cache_miss (spawn SomeRepositoryImpl (10 * second) 0) (by decide)).1,
   by decide,
   (C2_cache_miss (spawn SomeRepositoryImpl (10 * second) 0) (by decide)).2.2.2.2.2.1
     (by decide)⟩

/-- C6 fails as stated: a negative ttl is not rejected.  The constructor yields a
proxy that stores ttl minus one nanosecond, and that proxy is usable: its first
`GetData` returns the repository's value and starts a goroutine whose sleep of
the negative ttl ends at the store itself (clock two seconds). -/
theorem C6_counterexample :
    (NewSomeRepositoryProxy SomeRepositoryImpl (-1)).ttl = -1 ∧
    readSlot (NewSomeRepositoryProxy SomeRepositoryImpl (-1)) = none ∧
    (GetData (spawn SomeRepositoryImpl (-1) 0)).1 = "data from database" ∧
    (GetData (spawn SomeRepositoryImpl (-1) 0)).2.now = 2 * second ∧
    (GetData (spawn SomeRepositoryImpl (-1) 0)).2.timers =
      [{ due := 2 * second, data := "data from database" }] := by
  refine ⟨rfl, by decide, by decide, by decide, by decide⟩

/-- C6, amended. `NewSomeRepositoryProxy` validates nothing: for every ttl,
negative ones included, it yields a proxy that stores the given repository and the
given ttl and whose map is empty; a ttl that is not positive makes the goroutine's
sleep last no time at all. -/
theorem C6_construction (repository : SomeRepository) (ttl : Int) :
    (NewSomeRepositoryProxy repository ttl).repository = repository ∧
    (NewSomeRepositoryProxy repository ttl).ttl = ttl ∧
    (∀ k, mapLookup (NewSomeRepositoryProxy repository ttl).cache k = none) ∧
    readSlot (NewSomeRepositoryProxy repository ttl) = none ∧
    (ttl ≤ 0 → sleepFor (NewSomeRepositoryProxy repository ttl).ttl = 0) := by
  refine ⟨rfl, rfl, fun _ => rfl, rfl, ?_⟩
  intro h
  exact Int.toNat_eq_zero.mpr h

/-- Witness of C6 at ttl minus one nanosecond. -/
theorem C6_construction_witness :
    (-1 : Int) ≤ 0 ∧ sleepFor (NewSomeRepositoryProxy SomeRepositoryImpl (-1)).ttl = 0 :=
  ⟨by decide, (C6_construction SomeRepositoryImpl (-1)).2.2.2.2 (by decide)⟩

/-- C8. Idempotent invalidation: the delete leaves the slot empty; on a proxy whose
slot is already empty it returns the very same proxy; run twice it yields what
it yields run once; and it leaves ttl and repository alone.  It is a total
function, so it never fails. -/
theorem C8_invalidate_idempotent (p : SomeRepositoryProxy) :
    readSlot (invalidate p) = none ∧
    (readSlot p = none → invalidate p = p) ∧
    invalidate (invalidate p) = invalidate p ∧
    (invalidate p).ttl = p.ttl ∧ (invalidate p).repository = p.repository := by
  refine ⟨readSlot_invalidate p, ?_, ?_, rfl, rfl⟩
  · intro h
    cases p with
    | mk repository cache ttl =>
      simp only [invalidate, SomeRepositoryProxy.mk.injEq, true_and, and_true]
      funext k
      simp only [mapDelete]
      split
      · rename_i hk
        subst hk
        exact h.symm
      · rfl
  · cases p with
    | mk repository cache ttl =>
      simp only [invalidate, SomeRepositoryProxy.mk.injEq, true_and, and_true]
      funext k
      simp only [mapDelete]
      split <;> rfl

/-- Witness of C8 on a freshly constructed proxy, whose slot is empty. -/
theorem C8_invalidate_idempotent_witness :
    readSlot (NewSomeRepositoryProxy SomeRepositoryImpl (10 * second)) = none ∧
    invalidate (NewSomeRepositoryProxy SomeRepositoryImpl (10 * second)) =
      NewSomeRepositoryProxy SomeRepositoryImpl (10 * second) :=
  ⟨by decide,
   (C8_invalidate_idempotent (NewSomeRepositoryProxy SomeRepositoryImpl (10 * second))).2.1
     (by decide)⟩

/-! ## What every step preserves -/

theorem step_ttl (c : Config) (l : Label) : (step c l).proxy.ttl = c.proxy.ttl := by
  cases l <;> simp only [step] <;> repeat (first | rfl | split)

theorem step_repository (c : Config) (l : Label) :
    (step c l).proxy.repository = c.proxy.repository := by
  cases l <;> simp only [step] <;> repeat (first | rfl | split)

theorem step_calls_length (c : Config) (l : Label) :
    (step c l).calls.length = c.calls.length := by
  cases l <;> simp only [step] <;> repeat (first | rfl | simp [storeAndSchedule] | split)

theorem step_now_le (c : Config) (l : Label) : c.now ≤ (step c l).now := by
  cases l <;> simp only [step] <;>
    repeat (first | exact Nat.le_refl _ | exact Nat.le_add_right _ _ | split)

theorem run_append (c : Config) (xs ys : List Label) :
    run c (xs ++ ys) = run (run c xs) ys := by
  induction xs generalizing c with
  | nil => rfl
  | cons l ls ih => exact ih (step c l)

theorem run_ttl (c : Config) (ls : List Label) : (run c ls).proxy.ttl = c.proxy.ttl := by
  induction ls generalizing c with
  | nil => rfl
  | cons l ls ih => exact (ih (step c l)).trans (step_ttl c l)

theorem run_repository (c : Config) (ls : List Label) :
    (run c ls).proxy.repository = c.proxy.repository := by
  induction ls generalizing c with
  | nil => rfl
  | cons l ls ih => exact (ih (step c l)).trans (step_repository c l)

theorem run_calls_length (c : Config) (ls : List Label) :
    (run c ls).calls.length = c.calls.length := by
  induction ls generalizing c with
  | nil => rfl
  | cons l ls ih => exact (ih (step c l)).trans (step_calls_length c l)

theorem run_now_le (c : Config) (ls : List Label) : c.now ≤ (run c ls).now := by
  induction ls generalizing c with
  | nil => exact Nat.le_refl _
  | cons l ls ih => exact Nat.le_trans (step_now_le c l) (ih (step c l))

/-! ## Case analysis of a step -/

theorem step_move (c : Config) (l : Label) : Move c (step c l) := by
  cases l with
  | read i =>
    simp only [step]
    split
    · rename_i hi
      split
      · rename_i v hv
        exact Move.hit i v hi hv
      · rename_i hv
        exact Move.miss i hi hv
    · exact Move.stay
  | fetch i =>
    simp only [step]
    split
    · rename_i hi
      exact Move.fetch i hi
    · exact Move.stay
  | store i =>
    simp only [step]
    split
    · rename_i d r hi
      split
      · rename_i hr
        exact Move.store i d r hi hr
      · exact Move.stay
    · exact Move.stay
  | fire k =>
    simp only [step]
    split
    · rename_i t hk
      split
      · rename_i ht
        exact Move.fire k t hk ht
      · exact Move.stay
    · exact Move.stay
  | wait d => exact Move.wait d

theorem getElem?_set_some {l : List Call} {i j : Nat} {x y : Call}
    (h : (l.set i x)[j]? = some y) : (j = i ∧ y = x) ∨ l[j]? = some y := by
  rw [List.getElem?_set] at h
  split at h
  · rename_i hij
    split at h
    · simp only [Option.some.injEq] at h
      exact Or.inl ⟨hij.symm, h.symm⟩
    · simp at h
  · exact Or.inr h

/-! ## Provenance of values -/

theorem FromRepository.mono {k0 : Nat} {c c' : Config} {v : String}
    (h : FromRepository k0 c v)
    (hr : c'.proxy.repository = c.proxy.repository) (hi : c.invoked ≤ c'.invoked) :
    FromRepository k0 c' v := by
  obtain ⟨k, hk0, hk, hv⟩ := h
  exact ⟨k, hk0, Nat.lt_of_lt_of_le hk hi, by rw [hr]; exact hv⟩

theorem move_provenance {k0 : Nat} {c c' : Config} (m : Move c c') (h : Provenance k0 c) :
    Provenance k0 c' := by
  obtain ⟨hs, hf, hr, h0⟩ := h
  cases m with
  | stay => exact ⟨hs, hf, hr, h0⟩
  | hit i v hi hv =>
    refine ⟨hs, ?_, ?_, h0⟩
    · intro j d r hj
      rcases getElem?_set_some hj with ⟨_, h⟩ | h
      · cases h
      · exact hf j d r h
    · intro j d hj
      rcases getElem?_set_some hj with ⟨_, h⟩ | h
      · cases h
        exact hs _ hv
      · exact hr j d h
  | miss i hi hv =>
    refine ⟨hs, ?_, ?_, h0⟩
    · intro j d r hj
      rcases getElem?_set_some hj with ⟨_, h⟩ | h
      · cases h
      · exact hf j d r h
    · intro j d hj
      rcases getElem?_set_some hj with ⟨_, h⟩ | h
      · cases h
      · exact hr j d h
  | fetch i hi =>
    refine ⟨?_, ?_, ?_, Nat.le_succ_of_le h0⟩
    · intro v hv
      exact (hs v hv).mono rfl (Nat.le_succ _)
    · intro j d r hj
      rcases getElem?_set_some hj with ⟨_, h⟩ | h
      · cases h
        exact ⟨c.invoked, h0, Nat.lt_succ_self _, rfl⟩
      · exact (hf j d r h).mono rfl (Nat.le_succ _)
    · intro j d hj
      rcases getElem?_set_some hj with ⟨_, h⟩ | h
      · cases h
      · exact (hr j d h).mono rfl (Nat.le_succ _)
  | store i d r hi hr' =>
    have hd : FromRepository k0 c d := hf i d r hi
    refine ⟨?_, ?_, ?_, h0⟩
    · intro v hv
      have hv' : readSlot (storeAndSchedule c d).proxy = some v := hv
      rw [readSlot_store] at hv'
      cases hv'
      exact hd
    · intro j d' r' hj
      rcases getElem?_set_some hj with ⟨_, h⟩ | h
      · cases h
      · exact hf j d' r' h
    · intro j d' hj
      rcases getElem?_set_some hj with ⟨_, h⟩ | h
      · cases h
        exact hd
      · exact hr j d' h
  | fire k t hk ht =>
    refine ⟨?_, hf, hr, h0⟩
    intro v hv
    have hv' : readSlot (invalidate c.proxy) = some v := hv
    rw [readSlot_invalidate] at hv'
    cases hv'
  | wait d => exact ⟨hs, hf, hr, h0⟩

theorem run_provenance (k0 : Nat) (c : Config) (ls : List Label) (h : Provenance k0 c) :
    Provenance k0 (run c ls) := by
  induction ls generalizing c with
  | nil => exact h
  | cons l ls ih => exact ih (step c l) (move_provenance (step_move c l) h)

theorem ready_provenance (c : Config) (N : Nat) (hslot : readSlot c.proxy = none)
    (hcalls : c.calls = List.replicate N Call.ready) : Provenance c.invoked c := by
  refine ⟨?_, ?_, ?_, Nat.le_refl _⟩
  · intro v hv
    rw [hslot] at hv
    cases hv
  · intro i d r hi
    rw [hcalls, List.getElem?_replicate] at hi
    split at hi <;> cases hi
  · intro i d hi
    rw [hcalls, List.getElem?_replicate] at hi
    split at hi <;> cases hi

theorem spawn_provenance (repository : SomeRepository) (ttl : Int) (n : Nat) :
    Provenance 0 (spawn repository ttl n) :=
  ready_provenance (spawn repository ttl n) n rfl rfl

/-! ## Counting invocations -/

theorem sum_map_set (f : Call → Nat) (l : List Call) (i : Nat) (a x : Call)
    (h : l[i]? = some a) : ((l.set i x).map f).sum + f a = (l.map f).sum + f x := by
  induction l generalizing i with
  | nil => simp at h
  | cons b bs ih =>
    cases i with
    | zero =>
      simp only [List.getElem?_cons_zero, Option.some.injEq] at h
      subst h
      simp only [List.set_cons_zero, List.map_cons, List.sum_cons]
      omega
    | succ n =>
      simp only [List.getElem?_cons_succ] at h
      have := ih n h
      simp only [List.set_cons_succ, List.map_cons, List.sum_cons]
      omega

theorem move_count {c c' : Config} (m : Move c c') :
    c'.invoked + outstanding c' ≤ c.invoked + outstanding c := by
  cases m with
  | stay => exact Nat.le_refl _
  | hit i v hi hv =>
    have := sum_map_set unfetched c.calls i _ (Call.returned v) hi
    simp only [outstanding, unfetched] at this ⊢
    omega
  | miss i hi hv =>
    have := sum_map_set unfetched c.calls i _ Call.missed hi
    simp only [outstanding, unfetched] at this ⊢
    omega
  | fetch i hi =>
    have := sum_map_set unfetched c.calls i _
      (Call.fetched (c.proxy.repository.GetData c.invoked).1
        (c.now + (c.proxy.repository.GetData c.invoked).2)) hi
    simp only [outstanding, unfetched] at this ⊢
    omega
  | store i d r hi hr =>
    have := sum_map_set unfetched c.calls i _ (Call.returned d) hi
    simp only [outstanding, unfetched, storeAndSchedule] at this ⊢
    omega
  | fire k t hk ht => exact Nat.le_refl _
  | wait d => exact Nat.le_refl _

theorem run_count (c : Config) (ls : List Label) :
    (run c ls).invoked + outstanding (run c ls) ≤ c.invoked + outstanding c := by
  induction ls generalizing c with
  | nil => exact Nat.le_refl _
  | cons l ls ih => exact Nat.le_trans (ih (step c l)) (move_count (step_move c l))

theorem outstanding_ready (c : Config) (N : Nat)
    (hcalls : c.calls = List.replicate N Call.ready) : outstanding c = N := by
  simp [outstanding, hcalls, unfetched]

/-! ## Calls run to completion -/

theorem move_returned {c c' : Config} (m : Move c c') (j : Nat) (d : String)
    (h : c.calls[j]? = some (Call.returned d)) : c'.calls[j]? = some (Call.returned d) := by
  have key : ∀ (i : Nat) (a x : Call), c.calls[i]? = some a → (∀ e, a ≠ Call.returned e) →
      (c.calls.set i x)[j]? = some (Call.returned d) := by
    intro i a x hi hne
    have hij : i ≠ j := by
      intro e
      subst e
      rw [hi] at h
      cases h
      exact hne d rfl
    rw [List.getElem?_set_ne hij]
    exact h
  cases m with
  | stay => exact h
  | hit i v hi hv => exact key i _ _ hi (fun e he => by cases he)
  | miss i hi hv => exact key i _ _ hi (fun e he => by cases he)
  | fetch i hi => exact key i _ _ hi (fun e he => by cases he)
  | store i d' r hi hr => exact key i _ _ hi (fun e he => by cases he)
  | fire k t hk ht => exact h
  | wait d' => exact h

theorem run_returned (c : Config) (ls : List Label) (j : Nat) (d : String)
    (h : c.calls[j]? = some (Call.returned d)) :
    (run c ls).calls[j]? = some (Call.returned d) := by
  induction ls generalizing c with
  | nil => exact h
  | cons l ls ih => exact ih (step c l) (move_returned (step_move c l) j d h)

theorem finish_fetched (c : Config) (i : Nat) (d : String) (r : Nat)
    (h : c.calls[i]? = some (Call.fetched d r)) :
    (run c [.wait (r - c.now), .store i]).calls[i]? = some (Call.returned d) := by
  have hlen : i < c.calls.length := (List.getElem?_eq_some.mp h).1
  have hr : r ≤ c.now + (r - c.now) := by omega
  simp only [run, step, h, hr, if_true]
  exact List.getElem?_set_self hlen

theorem finish_missed (c : Config) (i : Nat) (h : c.calls[i]? = some Call.missed) :
    ∃ ls d, (run c ls).calls[i]? = some (Call.returned d) := by
  have hlen : i < c.calls.length := (List.getElem?_eq_some.mp h).1
  have h1 : (step c (.fetch i)).calls[i]? =
      some (Call.fetched (c.proxy.repository.GetData c.invoked).1
        (c.now + (c.proxy.repository.GetData c.invoked).2)) := by
    simp only [step, h]
    exact List.getElem?_set_self hlen
  exact ⟨.fetch i :: [.wait _, .store i], _, finish_fetched _ i _ _ h1⟩

theorem finish_one (c : Config) (i : Nat) (hi : i < c.calls.length) :
    ∃ ls d, (run c ls).calls[i]? = some (Call.returned d) := by
  have h : c.calls[i]? = some c.calls[i] := List.getElem?_eq_getElem hi
  cases hc : c.calls[i] with
  | ready =>
    rw [hc] at h
    cases hv : readSlot c.proxy with
    | some v =>
      refine ⟨[.read i], v, ?_⟩
      simp only [run, step, h, hv]
      exact List.getElem?_set_self hi
    | none =>
      have h1 : (step c (.read i)).calls[i]? = some Call.missed := by
        simp only [step, h, hv]
        exact List.getElem?_set_self hi
      obtain ⟨ls, d, hd⟩ := finish_missed _ i h1
      exact ⟨.read i :: ls, d, hd⟩
  | missed =>
    rw [hc] at h
    exact finish_missed c i h
  | fetched d r =>
    rw [hc] at h
    exact ⟨_, d, finish_fetched c i d r h⟩
  | returned d =>
    rw [hc] at h
    exact ⟨[], d, h⟩

theorem finish_all (c : Config) (n : Nat) (hn : n ≤ c.calls.length) :
    ∃ ls, ∀ i, i < n → ∃ d, (run c ls).calls[i]? = some (Call.returned d) := by
  induction n with
  | zero => exact ⟨[], fun i hi => absurd hi (Nat.not_lt_zero i)⟩
  | succ n ih =>
    obtain ⟨ls, hls⟩ := ih (Nat.le_of_succ_le hn)
    have hlen : n < (run c ls).calls.length := by
      rw [run_calls_length]
      exact hn
    obtain ⟨ls', d, hd⟩ := finish_one (run c ls) n hlen
    refine ⟨ls ++ ls', ?_⟩
    intro i hi
    rw [run_append]
    rcases Nat.lt_succ_iff_lt_or_eq.mp hi with h | h
    · obtain ⟨e, he⟩ := hls i h
      exact ⟨e, run_returned _ ls' i e he⟩
    · subst h
      exact ⟨d, hd⟩

/-! ## Punctual timers -/

theorem move_timely {c c' : Config} (m : Move c c') (h : Timely c)
    (hp : ∀ t, t ∈ c.timers → c'.now ≤ t.due) : Timely c' := by
  obtain ⟨hk, hv, ht, hs⟩ := h
  cases m with
  | stay => exact ⟨hk, hv, ht, hs⟩
  | hit i v hi hv' => exact ⟨hk, hv, ht, hs⟩
  | miss i hi hv' => exact ⟨hk, hv, ht, hs⟩
  | fetch i hi => exact ⟨hk, hv, ht, hs⟩
  | store i d r hi hr =>
    refine ⟨?_, ?_, ?_, ?_⟩
    · intro k hne
      have := hk k hne
      simp only [mapLookup, storeAndSchedule, mapAssign] at this ⊢
      rw [if_neg hne]
      exact this
    · intro v _
      exact ⟨c.now, rfl, ⟨c.now + sleepFor c.proxy.ttl, d⟩,
        List.mem_append_right _ (List.mem_singleton.mpr rfl), rfl⟩
    · intro t htm
      rcases List.mem_append.mp htm with h1 | h1
      · exact ht t h1
      · rw [List.mem_singleton.mp h1]
        exact Nat.le_add_right _ _
    · intro s hs'
      cases hs'
      exact Nat.le_refl _
  | fire k t hk' ht' =>
    refine ⟨?_, ?_, ?_, hs⟩
    · intro k' hne
      have := hk k' hne
      simp only [mapLookup, invalidate, mapDelete] at this ⊢
      rw [if_neg hne]
      exact this
    · intro v hv'
      have hv2 : readSlot (invalidate c.proxy) = some v := hv'
      rw [readSlot_invalidate] at hv2
      cases hv2
    · intro t' htm
      exact ht t' (List.mem_of_mem_eraseIdx htm)
  | wait d =>
    refine ⟨hk, hv, hp, ?_⟩
    intro s hs'
    exact Nat.le_trans (hs s hs') (Nat.le_add_right _ _)

theorem step_now_eq (c : Config) (l : Label) (h : ∀ d, l ≠ .wait d) :
    (step c l).now = c.now := by
  cases l with
  | wait d => exact absurd rfl (h d)
  | read i => simp only [step]; repeat (first | rfl | split)
  | fetch i => simp only [step]; repeat (first | rfl | split)
  | store i => simp only [step]; repeat (first | rfl | split)
  | fire k => simp only [step]; repeat (first | rfl | split)

theorem run_timely (c : Config) (ls : List Label) (h : Timely c)
    (hp : punctual c ls = true) : Timely (run c ls) := by
  induction ls generalizing c with
  | nil => exact h
  | cons l ls ih =>
    by_cases hw : ∃ d, l = .wait d
    · obtain ⟨d, rfl⟩ := hw
      simp only [punctual, Bool.and_eq_true, List.all_eq_true, decide_eq_true_eq] at hp
      exact ih _ (move_timely (step_move c _) h hp.1) hp.2
    · have hne : ∀ d, l ≠ .wait d := fun d e => hw ⟨d, e⟩
      have hp' : punctual (step c l) ls = true := by
        cases l with
        | wait d => exact absurd rfl (hne d)
        | read i => exact hp
        | fetch i => exact hp
        | store i => exact hp
        | fire k => exact hp
      refine ih _ (move_timely (step_move c l) h ?_) hp'
      intro t ht
      rw [step_now_eq c l hne]
      exact h.2.2.1 t ht

theorem spawn_timely (repository : SomeRepository) (ttl : Int) (n : Nat) :
    Timely (spawn repository ttl n) := by
  refine ⟨?_, ?_, ?_, ?_⟩
  · intro k _
    rfl
  · intro v hv
    cases hv
  · intro t ht
    cases ht
  · intro s hs
    cases hs

theorem move_backed {c c' : Config} (m : Move c c') (h : Backed c) : Backed c' := by
  cases m with
  | stay => exact h
  | hit i v hi hv => exact h
  | miss i hi hv => exact h
  | fetch i hi => exact h
  | store i d r hi hr =>
    intro v _
    exact ⟨c.now, rfl, ⟨c.now + sleepFor c.proxy.ttl, d⟩,
      List.mem_append_right _ (List.mem_singleton.mpr rfl), rfl⟩
  | fire k t hk ht =>
    intro v hv
    have hv2 : readSlot (invalidate c.proxy) = some v := hv
    rw [readSlot_invalidate] at hv2
    cases hv2
  | wait d => exact h

theorem run_backed (c : Config) (ls : List Label) (h : Backed c) : Backed (run c ls) := by
  induction ls generalizing c with
  | nil => exact h
  | cons l ls ih => exact ih (step c l) (move_backed (step_move c l) h)

theorem spawn_backed (repository : SomeRepository) (ttl : Int) (n : Nat) :
    Backed (spawn repository ttl n) := by
  intro v hv
  cases hv

/-- C4 fails as stated: a call issued strictly after ttl can be answered from the
slot.  With ttl ten seconds the first call populates at clock two seconds and its
goroutine is due at twelve; at twelve seconds and one nanosecond the goroutine
has not yet run, the slot still holds the value, and a call that reads now
returns it with the repository still invoked once only. -/
theorem C4_counterexample :
    (run (spawn SomeRepositoryImpl (10 * second) 2) lateSchedule).lastStore
      = some (2 * second) ∧
    (run (spawn SomeRepositoryImpl (10 * second) 2) lateSchedule).now = 12 * second + 1 ∧
    2 * second + sleepFor (10 * second) <
      (run (spawn SomeRepositoryImpl (10 * second) 2) lateSchedule).now ∧
    (run (spawn SomeRepositoryImpl (10 * second) 2) lateSchedule).timers =
      [{ due := 12 * second, data := "data from database" }] ∧
    readSlot (run (spawn SomeRepositoryImpl (10 * second) 2) lateSchedule).proxy =
      some "data from database" ∧
    (run (spawn SomeRepositoryImpl (10 * second) 2) lateSchedule).invoked = 1 ∧
    (run (run (spawn SomeRepositoryImpl (10 * second) 2) lateSchedule)
      [.read 1, .fetch 1]).calls =
      [.returned "data from database", .returned "data from database"] ∧
    (run (run (spawn SomeRepositoryImpl (10 * second) 2) lateSchedule)
      [.read 1, .fetch 1]).invoked = 1 ∧
    (GetData (run (spawn SomeRepositoryImpl (10 * second) 2) lateSchedule)).2.invoked = 1 := by
  refine ⟨by decide, by decide, by decide, by decide, by decide, by decide, by decide,
    by decide, by decide⟩

/-- C4, amended. Expiry: in every configuration reached from a fresh proxy in which
the clock is strictly more than ttl (the pause of the goroutine's
`time.Sleep(p.ttl)`, zero for a negative ttl) past the latest population and in
which no pending goroutine is overdue (every goroutine whose sleep has ended has
run its delete), the slot is empty; so a call that reads now takes the miss path
and invokes the repository once more. -/
theorem C4_expiry (repository : SomeRepository) (ttl : Int) (N : Nat) (sched : List Label)
    (s : Nat)
    (hs : (run (spawn repository ttl N) sched).lastStore = some s)
    (hlate : s + sleepFor ttl < (run (spawn repository ttl N) sched).now)
    (hrun : ∀ t, t ∈ (run (spawn repository ttl N) sched).timers →
      (run (spawn repository ttl N) sched).now ≤ t.due) :
    readSlot (run (spawn repository ttl N) sched).proxy = none ∧
    (∀ i, (run (spawn repository ttl N) sched).calls[i]? = some Call.ready →
      (run (run (spawn repository ttl N) sched) [.read i, .fetch i]).invoked =
        (run (spawn repository ttl N) sched).invoked + 1) ∧
    (GetData (run (spawn repository ttl N) sched)).2.invoked =
      (run (spawn repository ttl N) sched).invoked + 1 := by
  have hb := run_backed _ sched (spawn_backed repository ttl N)
  have httl : (run (spawn repository ttl N) sched).proxy.ttl = ttl := by
    rw [run_ttl]
    rfl
  have hnone : readSlot (run (spawn repository ttl N) sched).proxy = none := by
    cases hv : readSlot (run (spawn repository ttl N) sched).proxy with
    | none => rfl
    | some v =>
      obtain ⟨s', hs', t, htm, hdue⟩ := hb v hv
      rw [hs] at hs'
      cases hs'
      have := hrun t htm
      rw [httl] at hdue
      omega
  refine ⟨hnone, ?_, ?_⟩
  · intro i hi
    have hlen : i < (run (spawn repository ttl N) sched).calls.length :=
      (List.getElem?_eq_some.mp hi).1
    simp [run, step, hi, hnone, List.getElem?_set_self hlen]
  · simp [GetData, hnone, storeAndSchedule]

/-- Witness of C4, scenario B: ttl ten seconds, population at two seconds, the
goroutine deletes at twelve, and the call at thirteen seconds raises the number of
invocations from one to two. -/
theorem C4_expiry_witness :
    (run (spawn SomeRepositoryImpl (10 * second) 3) beforeThirdCall).lastStore
      = some (2 * second) ∧
    (run (spawn SomeRepositoryImpl (10 * second) 3) beforeThirdCall).now = 13 * second ∧
    (run (spawn SomeRepositoryImpl (10 * second) 3) beforeThirdCall).timers = [] ∧
    (run (spawn SomeRepositoryImpl (10 * second) 3) beforeThirdCall).invoked = 1 ∧
    (run (run (spawn SomeRepositoryImpl (10 * second) 3) beforeThirdCall)
      [.read 2, .fetch 2]).invoked =
      (run (spawn SomeRepositoryImpl (10 * second) 3) beforeThirdCall).invoked + 1 :=
  ⟨by decide, by decide, by decide, by decide,
   (C4_expiry SomeRepositoryImpl (10 * second) 3 beforeThirdCall
      (2 * second) (by decide) (by decide) (by decide)).2.1 2 (by decide)⟩

/-- C5 fails as stated, with "less than ttl": a held value can be exactly ttl old.
With ttl zero the value stored by the first call is held at age zero; with ttl
ten seconds it is still held when the clock reaches the store plus ten seconds
and the goroutine has not yet run its delete.  (The age is counted from the
store; counted from the invocation of the repository it is larger still.) -/
theorem C5_counterexample :
    (punctual (spawn SomeRepositoryImpl 0 1) firstCall = true ∧
      ¬ (readSlot (run (spawn SomeRepositoryImpl 0 1) firstCall).proxy = none ∨
        ∃ s, (run (spawn SomeRepositoryImpl 0 1) firstCall).lastStore = some s ∧
          ((run (spawn SomeRepositoryImpl 0 1) firstCall).now : Int) - s
            < (run (spawn SomeRepositoryImpl 0 1) firstCall).proxy.ttl)) ∧
    (punctual (spawn SomeRepositoryImpl (10 * second) 1) untilDue = true ∧
      ¬ (readSlot (run (spawn SomeRepositoryImpl (10 * second) 1) untilDue).proxy = none ∨
        ∃ s, (run (spawn SomeRepositoryImpl (10 * second) 1) untilDue).lastStore = some s ∧
          ((run (spawn SomeRepositoryImpl (10 * second) 1) untilDue).now : Int) - s
            < (run (spawn SomeRepositoryImpl (10 * second) 1) untilDue).proxy.ttl)) := by
  refine ⟨⟨by decide, ?_⟩, ⟨by decide, ?_⟩⟩
  · rintro (h | ⟨s, hs, hlt⟩)
    · exact absurd h (by decide)
    · have e : some (2 * second) = some s := hs
      cases e
      exact absurd hlt (by decide)
  · rintro (h | ⟨s, hs, hlt⟩)
    · exact absurd h (by decide)
    · have e : some (2 * second) = some s := hs
      cases e
      exact absurd hlt (by decide)

/-- C5, amended. Timers being punctual, in every configuration reached from a
fresh proxy by steps of `GetData` calls, passage of time and deletes of the
goroutines, the map has no key but `"data"`, and the slot is either empty or
holds one value, which the repository returned and which was stored at most ttl
(the pause of `time.Sleep(p.ttl)`, zero for a negative ttl) before the current
clock reading. -/
theorem C5_slot_validity (repository : SomeRepository) (ttl : Int) (N : Nat)
    (sched : List Label) (hp : punctual (spawn repository ttl N) sched = true) :
    (∀ k, k ≠ "data" →
      mapLookup (run (spawn repository ttl N) sched).proxy.cache k = none) ∧
    (readSlot (run (spawn repository ttl N) sched).proxy = none ∨
      ∃ v s k, readSlot (run (spawn repository ttl N) sched).proxy = some v ∧
        k < (run (spawn repository ttl N) sched).invoked ∧ v = (repository.GetData k).1 ∧
        (run (spawn repository ttl N) sched).lastStore = some s ∧
        s ≤ (run (spawn repository ttl N) sched).now ∧
        (run (spawn repository ttl N) sched).now ≤ s + sleepFor ttl) := by
  have ht := run_timely _ sched (spawn_timely repository ttl N) hp
  have hprov := run_provenance 0 _ sched (spawn_provenance repository ttl N)
  have httl : (run (spawn repository ttl N) sched).proxy.ttl = ttl := by
    rw [run_ttl]
    rfl
  have hrep : (run (spawn repository ttl N) sched).proxy.repository = repository := by
    rw [run_repository]
    rfl
  refine ⟨ht.1, ?_⟩
  cases hv : readSlot (run (spawn repository ttl N) sched).proxy with
  | none => exact Or.inl rfl
  | some v =>
    right
    obtain ⟨s, hs, t, htm, hdue⟩ := ht.2.1 v hv
    obtain ⟨k, _, hk, hd⟩ := hprov.1 v hv
    rw [hrep] at hd
    rw [httl] at hdue
    have h1 := ht.2.2.1 t htm
    exact ⟨v, s, k, rfl, hk, hd, hs, ht.2.2.2 s hs, by omega⟩

/-- Witness of C5: the proxy of `main` ten seconds after its first population. -/
theorem C5_slot_validity_witness :
    punctual (spawn SomeRepositoryImpl (10 * second) 1) untilDue = true ∧
    readSlot (run (spawn SomeRepositoryImpl (10 * second) 1) untilDue).proxy =
      some "data from database" ∧
    (∀ k, k ≠ "data" →
      mapLookup (run (spawn SomeRepositoryImpl (10 * second) 1) untilDue).proxy.cache k = none) :=
  ⟨by decide, by decide,
   (C5_slot_validity SomeRepositoryImpl (10 * second) 1 untilDue
      (by decide)).1⟩

/-! ## The uninterrupted call and the steps agree -/

theorem GetData_as_steps (c : Config) (i : Nat) (hi : c.calls[i]? = some Call.ready)
    (hslot : readSlot c.proxy = none) :
    run c [.read i, .fetch i, .wait (c.proxy.repository.GetData c.invoked).2, .store i] =
      { (GetData c).2 with calls := c.calls.set i (.returned (GetData c).1) } := by
  have hlen : i < c.calls.length := (List.getElem?_eq_some.mp hi).1
  simp [run, step, hi, hslot, GetData, storeAndSchedule, List.getElem?_set_self hlen]

theorem main_trace :
    punctual (spawn SomeRepositoryImpl (10 * second) 3) mainSchedule = true ∧
    (run (spawn SomeRepositoryImpl (10 * second) 3) mainSchedule).calls =
      [.returned "data from database", .returned "data from database",
       .returned "data from database"] ∧
    (run (spawn SomeRepositoryImpl (10 * second) 3) mainSchedule).invoked = 2 ∧
    (run (spawn SomeRepositoryImpl (10 * second) 3) mainSchedule).now = 15 * second := by
  refine ⟨by decide, by decide, by decide, by decide⟩

/-! ## Calls within ttl of the first -/

theorem move_warm {c c' : Config} (m : Move c c') (v : String) (B : Nat) (h : Warm c v B)
    (hB : c'.now < B) : Warm c' v B := by
  obtain ⟨hv, ht, hi, hc⟩ := h
  cases m with
  | stay => exact ⟨hv, ht, hi, hc⟩
  | hit i w hi' hw =>
    rw [hv] at hw
    cases hw
    refine ⟨hv, ht, hi, ?_⟩
    intro j x hj
    rcases getElem?_set_some hj with ⟨_, h⟩ | h
    · exact Or.inr h
    · exact hc j x h
  | miss i hi' hw =>
    rw [hv] at hw
    cases hw
  | fetch i hi' =>
    rcases hc i _ hi' with h | h <;> cases h
  | store i d r hi' hr =>
    rcases hc i _ hi' with h | h <;> cases h
  | fire k t hk hdue =>
    have hm : t ∈ c.timers := List.mem_iff_getElem?.mpr ⟨k, hk⟩
    have h1 := ht t hm
    have h2 : c.now < B := hB
    omega
  | wait d => exact ⟨hv, ht, hi, hc⟩

theorem run_warm (c : Config) (ls : List Label) (v : String) (B : Nat) (h : Warm c v B)
    (hB : (run c ls).now < B) : Warm (run c ls) v B := by
  induction ls generalizing c with
  | nil => exact h
  | cons l ls ih =>
    have h1 : (step c l).now < B := Nat.lt_of_le_of_lt (run_now_le (step c l) ls) hB
    exact ih (step c l) (move_warm (step_move c l) v B h h1) hB

theorem GetData_spawn (repository : SomeRepository) (ttl : Int) (N : Nat) :
    GetData (spawn repository ttl N) =
      ((repository.GetData 0).1,
       storeAndSchedule { spawn repository ttl N with
         invoked := 1, now := (repository.GetData 0).2 } (repository.GetData 0).1) := by
  simp [GetData, spawn, readSlot, NewSomeRepositoryProxy, mapLookup]

/-- C3. Hit and miss: on a freshly constructed proxy the first call of `GetData`
reaches the repository and populates the slot.  After it, let further calls, the
passage of time and the goroutine run in any order; as long as the clock is less
than ttl past that population, the repository has been invoked exactly once (by
the first call), the slot holds the value the first call returned, and every
further call has either not started or has returned that same value. -/
theorem C3_hit_within_ttl (repository : SomeRepository) (ttl : Int) (N : Nat)
    (rest : List Label)
    (hwithin : (run (GetData (spawn repository ttl N)).2 rest).now <
      (GetData (spawn repository ttl N)).2.now + sleepFor ttl) :
    (GetData (spawn repository ttl N)).1 = (repository.GetData 0).1 ∧
    (GetData (spawn repository ttl N)).2.invoked = 1 ∧
    (run (GetData (spawn repository ttl N)).2 rest).invoked = 1 ∧
    readSlot (run (GetData (spawn repository ttl N)).2 rest).proxy =
      some (GetData (spawn repository ttl N)).1 ∧
    (∀ (i : Nat) (x : Call), (run (GetData (spawn repository ttl N)).2 rest).calls[i]? = some x →
      x = Call.ready ∨ x = Call.returned (GetData (spawn repository ttl N)).1) ∧
    (∀ i, (run (GetData (spawn repository ttl N)).2 rest).calls[i]? = some Call.ready →
      (step (run (GetData (spawn repository ttl N)).2 rest) (.read i)).calls[i]? =
        some (Call.returned (GetData (spawn repository ttl N)).1) ∧
      (step (run (GetData (spawn repository ttl N)).2 rest) (.read i)).invoked = 1) := by
  have hw : Warm (GetData (spawn repository ttl N)).2 (GetData (spawn repository ttl N)).1
      ((GetData (spawn repository ttl N)).2.now + sleepFor ttl) := by
    rw [GetData_spawn]
    refine ⟨readSlot_store _ _, ?_, rfl, ?_⟩
    · intro t ht
      have ht' : t ∈ ([] : List Timer) ++
          [{ due := (repository.GetData 0).2 + sleepFor ttl, data := (repository.GetData 0).1 }] :=
        ht
      simp only [List.nil_append, List.mem_singleton] at ht'
      rw [ht']
      exact Nat.le_refl _
    · intro i x hx
      have hx' : (List.replicate N Call.ready)[i]? = some x := hx
      rw [List.getElem?_replicate] at hx'
      split at hx'
      · cases hx'
        exact Or.inl rfl
      · cases hx'
  have h := run_warm _ rest _ _ hw hwithin
  refine ⟨?_, ?_, h.2.2.1, h.1, h.2.2.2, ?_⟩
  · rw [GetData_spawn]
  · rw [GetData_spawn]
    rfl
  · intro i hi
    have hlen : i < (run (GetData (spawn repository ttl N)).2 rest).calls.length :=
      (List.getElem?_eq_some.mp hi).1
    simp only [step, hi, h.1]
    exact ⟨List.getElem?_set_self hlen, h.2.2.1⟩

/-- Witness of C3, scenario A: ttl ten seconds, the repository answers
`"data from database"` after two seconds; the first call returns it at clock two
seconds, the second call reads the slot at that clock and returns it too, and
the repository has been invoked once. -/
theorem C3_hit_within_ttl_witness :
    (run (GetData (spawn SomeRepositoryImpl (10 * second) 1)).2 [.read 0]).now = 2 * second ∧
    (GetData (spawn SomeRepositoryImpl (10 * second) 1)).2.now + sleepFor (10 * second)
      = 12 * second ∧
    (GetData (spawn SomeRepositoryImpl (10 * second) 1)).1 = "data from database" ∧
    (run (GetData (spawn SomeRepositoryImpl (10 * second) 1)).2 [.read 0]).calls =
      [.returned "data from database"] ∧
    (run (GetData (spawn SomeRepositoryImpl (10 * second) 1)).2 [.read 0]).invoked = 1 :=
  ⟨by decide, by decide, by decide, by decide,
   (C3_hit_within_ttl SomeRepositoryImpl (10 * second) 1 [.read 0] (by decide)).2.2.1⟩

/-! ## Zero ttl -/

theorem fire_after_GetData (c : Config) (httl : c.proxy.ttl = 0)
    (hslot : readSlot c.proxy = none) (htimers : c.timers = []) :
    (GetData c).1 = (c.proxy.repository.GetData c.invoked).1 ∧
    (step (GetData c).2 (.fire 0)).proxy.ttl = 0 ∧
    (step (GetData c).2 (.fire 0)).proxy.repository = c.proxy.repository ∧
    readSlot (step (GetData c).2 (.fire 0)).proxy = none ∧
    (step (GetData c).2 (.fire 0)).timers = [] ∧
    (step (GetData c).2 (.fire 0)).invoked = c.invoked + 1 := by
  have hg : GetData c = ((c.proxy.repository.GetData c.invoked).1,
      storeAndSchedule { c with invoked := c.invoked + 1,
                                now := c.now + (c.proxy.repository.GetData c.invoked).2 }
        (c.proxy.repository.GetData c.invoked).1) := by
    simp [GetData, hslot]
  rw [hg]
  refine ⟨rfl, ?_, ?_, ?_, ?_, ?_⟩
  · rw [step_ttl]
    exact httl
  · rw [step_repository]
    rfl
  · simp [step, storeAndSchedule, htimers, httl, sleepFor, readSlot_invalidate]
  · simp [step, storeAndSchedule, htimers, httl, sleepFor]
  · simp [step, storeAndSchedule, htimers, httl, sleepFor]

theorem expiringCalls_spec (n : Nat) (c : Config) (httl : c.proxy.ttl = 0)
    (hslot : readSlot c.proxy = none) (htimers : c.timers = []) :
    (expiringCalls n c).1 =
      (List.range n).map (fun k => (c.proxy.repository.GetData (c.invoked + k)).1) ∧
    (expiringCalls n c).2.invoked = c.invoked + n ∧
    readSlot (expiringCalls n c).2.proxy = none ∧
    (expiringCalls n c).2.timers = [] := by
  induction n generalizing c with
  | zero => exact ⟨rfl, rfl, hslot, htimers⟩
  | succ n ih =>
    obtain ⟨g1, g2, g3, g4, g5, g6⟩ := fire_after_GetData c httl hslot htimers
    obtain ⟨h1, h2, h3, h4⟩ := ih (step (GetData c).2 (.fire 0)) g2 g4 g5
    refine ⟨?_, ?_, h3, h4⟩
    · simp only [expiringCalls]
      rw [h1, List.range_succ_eq_map, List.map_cons, List.map_map, g1, g3, g6]
      congr 1
      apply List.map_congr_left
      intro k _
      simp only [Function.comp]
      congr 2
      omega
    · simp only [expiringCalls]
      rw [h2, g6]
      omega

/-- C7 fails as stated: with ttl zero a call can be answered from the slot.  After
the first call of a zero-ttl proxy the slot holds the value and the goroutine,
though due, has not yet run; a second call that reads now returns the held value
and the repository has still been invoked once only.  The same happens in the
step semantics along a punctual schedule. -/
theorem C7_counterexample :
    readSlot (GetData (spawn SomeRepositoryImpl 0 0)).2.proxy = some "data from database" ∧
    (GetData (spawn SomeRepositoryImpl 0 0)).2.invoked = 1 ∧
    (GetData (GetData (spawn SomeRepositoryImpl 0 0)).2).1 = "data from database" ∧
    (GetData (GetData (spawn SomeRepositoryImpl 0 0)).2).2.invoked = 1 ∧
    punctual (spawn SomeRepositoryImpl 0 2) (firstCall ++ [Label.read 1]) = true ∧
    (run (spawn SomeRepositoryImpl 0 2) (firstCall ++ [Label.read 1])).calls =
      [.returned "data from database", .returned "data from database"] ∧
    (run (spawn SomeRepositoryImpl 0 2) (firstCall ++ [Label.read 1])).invoked = 1 := by
  refine ⟨by decide, by decide, by decide, by decide, by decide, by decide, by decide⟩

/-- C7, amended. With ttl zero the goroutine started by a store is due at the store
itself.  In the runs of a freshly constructed zero-ttl proxy in which that
goroutine deletes before the next call reads the slot, every call invokes the
repository: `n` sequential calls return the first `n` values of the repository
in order, the repository has been invoked `n` times, and afterwards the slot is
empty and no goroutine is pending.  `GetData` is total, so no call crashes. -/
theorem C7_zero_ttl (repository : SomeRepository) (N n : Nat) :
    (expiringCalls n (spawn repository 0 N)).1 =
      (List.range n).map (fun k => (repository.GetData k).1) ∧
    (expiringCalls n (spawn repository 0 N)).2.invoked = n ∧
    readSlot (expiringCalls n (spawn repository 0 N)).2.proxy = none ∧
    (expiringCalls n (spawn repository 0 N)).2.timers = [] ∧
    (∀ c : Config, c.proxy.ttl = 0 → readSlot c.proxy = none →
      (GetData c).2.timers = c.timers ++ [{ due := (GetData c).2.now, data := (GetData c).1 }]) := by
  obtain ⟨h1, h2, h3, h4⟩ := expiringCalls_spec n (spawn repository 0 N) rfl rfl rfl
  refine ⟨?_, ?_, h3, h4, ?_⟩
  · rw [h1]
    apply List.map_congr_left
    intro k _
    simp [spawn, NewSomeRepositoryProxy]
  · rw [h2]
    simp [spawn]
  · intro c httl hslot
    simp [GetData, hslot, storeAndSchedule, httl, sleepFor]

/-- Witness of C7: three calls of a zero-ttl proxy in front of the repository of
`main`, each followed by the delete of its goroutine. -/
theorem C7_zero_ttl_witness :
    (expiringCalls 3 (spawn SomeRepositoryImpl 0 0)).1 =
      ["data from database", "data from database", "data from database"] ∧
    (expiringCalls 3 (spawn SomeRepositoryImpl 0 0)).2.invoked = 3 ∧
    (spawn SomeRepositoryImpl 0 0).proxy.ttl = 0 ∧
    readSlot (spawn SomeRepositoryImpl 0 0).proxy = none ∧
    (GetData (spawn SomeRepositoryImpl 0 0)).2.timers =
      (spawn SomeRepositoryImpl 0 0).timers ++
        [{ due := (GetData (spawn SomeRepositoryImpl 0 0)).2.now,
           data := (GetData (spawn SomeRepositoryImpl 0 0)).1 }] :=
  ⟨by decide, (C7_zero_ttl SomeRepositoryImpl 0 3).2.1, by decide, by decide,
   (C7_zero_ttl SomeRepositoryImpl 0 3).2.2.2.2 (spawn SomeRepositoryImpl 0 0)
     (by decide) (by decide)⟩

/-! ## Concurrent callers -/

/-- C9. Bounded stampede: `N ≥ 1` calls are issued together against an empty
slot, and their steps (read the slot, invoke the repository, store and
schedule), the deletes of the goroutines and the passage of time are interleaved
by an arbitrary schedule.  In every configuration so reached: there are still
`N` calls; every call that has returned returned a value that one of the
repository invocations made since the calls were issued returned; the
repository was invoked at most `N` times since then, and at least once as soon
as all calls have returned; and no configuration is stuck, since some
continuation makes all `N` calls return. -/
theorem C9_bounded_stampede (c : Config) (N : Nat) (hN : 1 ≤ N)
    (hslot : readSlot c.proxy = none) (hcalls : c.calls = List.replicate N Call.ready)
    (sched : List Label) :
    (run c sched).calls.length = N ∧
    (∀ (i : Nat) (d : String), (run c sched).calls[i]? = some (Call.returned d) →
      ∃ k, c.invoked ≤ k ∧ k < (run c sched).invoked ∧
        d = (c.proxy.repository.GetData k).1) ∧
    (run c sched).invoked ≤ c.invoked + N ∧
    ((∀ i, i < N → ∃ d, (run c sched).calls[i]? = some (Call.returned d)) →
      c.invoked + 1 ≤ (run c sched).invoked) ∧
    (∃ more, ∀ i, i < N → ∃ d, (run (run c sched) more).calls[i]? = some (Call.returned d)) := by
  have hlen : (run c sched).calls.length = N := by
    rw [run_calls_length, hcalls]
    exact List.length_replicate N Call.ready
  have hprov := run_provenance c.invoked c sched (ready_provenance c N hslot hcalls)
  have hret : ∀ (i : Nat) (d : String), (run c sched).calls[i]? = some (Call.returned d) →
      ∃ k, c.invoked ≤ k ∧ k < (run c sched).invoked ∧
        d = (c.proxy.repository.GetData k).1 := by
    intro i d h
    obtain ⟨k, hk0, hk, hd⟩ := hprov.2.2.1 i d h
    rw [run_repository] at hd
    exact ⟨k, hk0, hk, hd⟩
  refine ⟨hlen, hret, ?_, ?_, ?_⟩
  · have h := run_count c sched
    rw [outstanding_ready c N hcalls] at h
    omega
  · intro hall
    obtain ⟨d, hd⟩ := hall 0 hN
    obtain ⟨k, hk0, hk, _⟩ := hret 0 d hd
    omega
  · exact finish_all _ N (Nat.le_of_eq hlen.symm)

/-- Witness of C9: two calls of the proxy of `main` that both miss; both return the
repository's string, which was fetched twice. -/
theorem C9_bounded_stampede_witness :
    1 ≤ 2 ∧
    readSlot (spawn SomeRepositoryImpl (10 * second) 2).proxy = none ∧
    (spawn SomeRepositoryImpl (10 * second) 2).calls = List.replicate 2 Call.ready ∧
    (run (spawn SomeRepositoryImpl (10 * second) 2) stampedeSchedule).invoked = 2 ∧
    (run (spawn SomeRepositoryImpl (10 * second) 2) stampedeSchedule).calls =
      [.returned "data from database", .returned "data from database"] ∧
    (run (spawn SomeRepositoryImpl (10 * second) 2) stampedeSchedule).invoked ≤
      (spawn SomeRepositoryImpl (10 * second) 2).invoked + 2 ∧
    (spawn SomeRepositoryImpl (10 * second) 2).invoked + 1 ≤
      (run (spawn SomeRepositoryImpl (10 * second) 2) stampedeSchedule).invoked :=
  ⟨by decide, by decide, by decide, by decide, by decide,
   (C9_bounded_stampede (spawn SomeRepositoryImpl (10 * second) 2) 2 (by decide) (by decide)
      (by decide) stampedeSchedule).2.2.1,
   (C9_bounded_stampede (spawn SomeRepositoryImpl (10 * second) 2) 2 (by decide) (by decide)
      (by decide) stampedeSchedule).2.2.2.1
     (fun i hi => match i, hi with
       | 0, _ => ⟨"data from database", by decide⟩
       | 1, _ => ⟨"data from database", by decide⟩)⟩

/-- C10 fails as stated: the delete is not scoped to its own entry.  Two calls
miss together against a ttl of ten seconds; call 0 stores `"first"` at clock
zero and call 1 replaces it by `"second"` one second later.  At clock ten
seconds the goroutine started by the population of `"first"` is due; the slot
holds `"second"`, nine seconds old; the delete of that goroutine empties it. -/
theorem C10_counterexample :
    punctual (spawn changingRepository (10 * second) 2) overlapSchedule = true ∧
    (run (spawn changingRepository (10 * second) 2) overlapSchedule).timers[0]? =
      some { due := 10 * second, data := "first" } ∧
    readSlot (run (spawn changingRepository (10 * second) 2) overlapSchedule).proxy =
      some "second" ∧
    (run (spawn changingRepository (10 * second) 2) overlapSchedule).lastStore = some second ∧
    (run (spawn changingRepository (10 * second) 2) overlapSchedule).now = 10 * second ∧
    readSlot (step (run (spawn changingRepository (10 * second) 2) overlapSchedule)
      (.fire 0)).proxy = none := by
  refine ⟨by decide, by decide, by decide, by decide, by decide, by decide⟩

theorem step_keeps_slot (c : Config) (l : Label) (v : String) (hl : ∀ j, l ≠ Label.fire j)
    (hv : readSlot c.proxy = some v) : ∃ w, readSlot (step c l).proxy = some w := by
  cases l with
  | fire j => exact absurd rfl (hl j)
  | wait d => exact ⟨v, hv⟩
  | read i =>
    simp only [step]
    split
    · split
      · exact ⟨v, hv⟩
      · exact ⟨v, hv⟩
    · exact ⟨v, hv⟩
  | fetch i =>
    simp only [step]
    split
    · exact ⟨v, hv⟩
    · exact ⟨v, hv⟩
  | store i =>
    simp only [step]
    split
    · rename_i d r hi
      split
      · exact ⟨d, readSlot_store c d⟩
      · exact ⟨v, hv⟩
    · exact ⟨v, hv⟩

/-- C10, amended. The delete of a goroutine is unconditional: whenever a pending
goroutine's sleep has ended, its step empties the slot, whatever value the slot
holds and whichever population stored it, removes that goroutine alone from the
pending ones, and changes nothing else (map entries under other keys, ttl,
repository, clock, invocation count, calls, latest store time).  No step other
than such a delete empties a held slot. -/
theorem C10_unscoped_invalidation (c : Config) (k : Nat) (t : Timer)
    (hk : c.timers[k]? = some t) (hdue : t.due ≤ c.now) :
    readSlot (step c (.fire k)).proxy = none ∧
    (step c (.fire k)).timers = c.timers.eraseIdx k ∧
    (∀ key, key ≠ "data" →
      mapLookup (step c (.fire k)).proxy.cache key = mapLookup c.proxy.cache key) ∧
    (step c (.fire k)).proxy.ttl = c.proxy.ttl ∧
    (step c (.fire k)).proxy.repository = c.proxy.repository ∧
    (step c (.fire k)).now = c.now ∧ (step c (.fire k)).invoked = c.invoked ∧
    (step c (.fire k)).calls = c.calls ∧ (step c (.fire k)).lastStore = c.lastStore ∧
    (∀ (l : Label) (v : String), (∀ j, l ≠ Label.fire j) → readSlot c.proxy = some v →
      ∃ w, readSlot (step c l).proxy = some w) := by
  have hs : step c (.fire k) =
      { c with proxy := invalidate c.proxy, timers := c.timers.eraseIdx k } := by
    simp [step, hk, hdue]
  rw [hs]
  refine ⟨readSlot_invalidate _, rfl, ?_, rfl, rfl, rfl, rfl, rfl, rfl, ?_⟩
  · intro key hne
    simp only [mapLookup, invalidate, mapDelete]
    rw [if_neg hne]
  · intro l v hl hv
    exact step_keeps_slot c l v hl hv

/-- Witness of C10: the goroutine of the first population, due at ten seconds,
clears the value of the second population. -/
theorem C10_unscoped_invalidation_witness :
    (run (spawn changingRepository (10 * second) 2) overlapSchedule).timers[0]? =
      some { due := 10 * second, data := "first" } ∧
    10 * second ≤ (run (spawn changingRepository (10 * second) 2) overlapSchedule).now ∧
    readSlot (run (spawn changingRepository (10 * second) 2) overlapSchedule).proxy =
      some "second" ∧
    readSlot (step (run (spawn changingRepository (10 * second) 2) overlapSchedule)
      (.fire 0)).proxy = none ∧
    (∃ w, readSlot (step (run (spawn changingRepository (10 * second) 2) overlapSchedule)
      (Label.wait second)).proxy = some w) :=
  ⟨by decide, by decide, by decide,
   (C10_unscoped_invalidation (run (spawn changingRepository (10 * second) 2) overlapSchedule)
      0 { due := 10 * second, data := "first" } (by decide) (by decide)).1,
   (C10_unscoped_invalidation (run (spawn changingRepository (10 * second) 2) overlapSchedule)
      0 { due := 10 * second, data := "first" } (by decide) (by decide)).2.2.2.2.2.2.2.2.2
      (Label.wait second) "second" (fun _ h => Label.noConfusion h) (by decide)⟩

end PatternProxy
